import Mathlib

/-!
# Verification of the Data Processing System (Go / Java producer-consumer pipeline)

Shallow embedding of `go/main.go` and `java/DataProcessingSystem.java`:
a Coordinator preloads `NUM_TASKS` tasks into a shared queue, `NUM_WORKERS`
workers drain it concurrently, each worker computes `value*2 + id`, appends a
formatted line to a shared results file (ResultSink), and logs transitions to a
shared log file (AuditLog).

Modelling choices:
* Go `int` is embedded as `Int` (no value in the program approaches overflow).
* Wall-clock timestamps and the randomized 50-150 ms processing delays are not
  modelled: no verified property depends on real time.
* Concurrency is modelled as a small-step interleaving semantics: a run is an
  arbitrary list of scheduler actions (`Act`), each firing one atomic step of
  one worker (fetch from the queue / compute / emit under the sink lock) or the
  coordinator close.  File-write failures are environment inputs carried on the
  emit action (`Option String` = the `error` value returned by the OS write).
* `emitted`, `failedWrites`, `computeFailures` are ghost instrumentation fields
  recording which (worker, task) pairs produced sink lines and how many writes
  or computes failed; they are written only alongside the corresponding real
  transitions and are never read by the step function.
-/

namespace DataProcessingSystem

/-- `Task` from `go/main.go` (struct with ID, Description, DataValue) /
`Task` class in the Java source (id, description, dataValue). -/
structure Task where
  ID : Int
  Description : String
  DataValue : Int
deriving DecidableEq, Repr

/-- Go `func (t Task) String()`: `Task[id=%d, description='%s', data=%d]`
(the Java `toString` produces the same shape). -/
def Task.toStringGo (t : Task) : String :=
  "Task[id=" ++ toString t.ID ++ ", description='" ++ t.Description ++
    "', data=" ++ toString t.DataValue ++ "]"

/-- Constant `NUM_WORKERS = 5` from both sources. -/
def NUM_WORKERS : Nat := 5

/-- Constant `NUM_TASKS = 20` from both sources. -/
def NUM_TASKS : Nat := 20

/-- Go `TaskQueue`: a buffered channel of `Task`.  The channel state is its
FIFO buffer plus whether `close` has been called. -/
structure TaskQueue where
  buf : List Task
  closed : Bool
deriving DecidableEq, Repr

/-- Go `(tq *TaskQueue) AddTask`: send on the channel (the buffer has capacity
`NUM_TASKS` and preload inserts exactly that many, so the send never blocks). -/
def TaskQueue.AddTask (tq : TaskQueue) (task : Task) : TaskQueue :=
  { tq with buf := tq.buf ++ [task] }

/-- Outcome of a blocking channel receive. -/
inductive FetchResult where
  /-- A task was received (`ok = true`), leaving the rest of the buffer. -/
  | got (task : Task) (rest : TaskQueue)
  /-- Channel closed and drained: receive returns `ok = false`. -/
  | closedEmpty
  /-- Channel open and empty: the receive blocks (no step possible). -/
  | blocked
deriving DecidableEq, Repr

/-- Go `(tq *TaskQueue) GetTask`: `task, ok := <-tq.tasks`.  A buffered-channel
receive yields the oldest buffered element; on an empty closed channel it
returns `ok = false`; on an empty open channel it blocks. -/
def TaskQueue.GetTask (tq : TaskQueue) : FetchResult :=
  match tq.buf with
  | t :: rest => .got t { tq with buf := rest }
  | [] => if tq.closed then .closedEmpty else .blocked

/-- Go `(tq *TaskQueue) Close`: `close(tq.tasks)`. -/
def TaskQueue.Close (tq : TaskQueue) : TaskQueue :=
  { tq with closed := true }

/-- Go `(w *Worker) processTask`: computes `processedValue := task.DataValue*2
+ task.ID` and formats the result line; returns `(result, nil)` — the error
component is always `nil` in the source.  (The simulated 50-150 ms sleep is
dropped; it has no effect on any data.) -/
def processTask (workerId : Int) (task : Task) : String × Option String :=
  let processedValue := task.DataValue * 2 + task.ID
  let result := "Task " ++ toString task.ID ++ " processed by Worker-" ++
    toString workerId ++ " | Original: " ++ toString task.DataValue ++
    " | Processed: " ++ toString processedValue
  (result, none)

/-- Go `preloadTasks`: for `i := 1; i <= numTasks; i++` build
`Task{ID: i, Description: fmt.Sprintf("Process data item %d", i),
DataValue: i * 100}` (identical loop in the Java source). -/
def preloadTasks (numTasks : Nat) : List Task :=
  (List.range numTasks).map fun (i : Nat) =>
    { ID := (i : Int) + 1
      Description := "Process data item " ++ toString ((i : Int) + 1)
      DataValue := ((i : Int) + 1) * 100 }

/-- Go `(rw *ResultWriter) WriteResult`: under the mutex, `fmt.Fprintln` the
line; if the underlying write fails (`writeErr = some e`, an environment
input), wrap and RETURN the error to the caller; otherwise append the line and
return `nil`.  The sink file is the list of lines written so far. -/
def ResultWriter.WriteResult (file : List String) (result : String)
    (writeErr : Option String) : Except String (List String) :=
  match writeErr with
  | some e => .error ("failed to write result: " ++ e)
  | none => .ok (file ++ [result])

/-- State of the Go `Logger`: the log file's lines plus the stderr side
channel targeted by `log.Printf` (timestamps are wall-clock and not
modelled; an entry is identified by its message). -/
structure LoggerState where
  file : List String
  stderrLines : List String
deriving DecidableEq, Repr

/-- Go `(l *Logger) Log`: under the mutex, write the entry; if the underlying
write fails (`writeErr = some e`), print `ERROR: Failed to write log: ...` to
stderr via `log.Printf` and RETURN NORMALLY — the function has no error result
and the caller never observes the failure. -/
def Logger.Log (l : LoggerState) (message : String)
    (writeErr : Option String) : LoggerState :=
  match writeErr with
  | some e =>
    { l with stderrLines := l.stderrLines ++ ["ERROR: Failed to write log: " ++ e] }
  | none => { l with file := l.file ++ [message] }

/-- The Java `TaskQueue`: a `LinkedList` guarded by a `ReentrantLock`; it has
no closed flag and no close operation. -/
structure JavaTaskQueue where
  queue : List Task
deriving DecidableEq, Repr

/-- Java `TaskQueue.getTask()`: `queue.poll()` under the lock — returns the
head, or `null` (here `none`) whenever the queue is empty; it never blocks. -/
def javaGetTask (q : JavaTaskQueue) : Option (Task × JavaTaskQueue) :=
  match q.queue with
  | [] => none
  | t :: rest => some (t, { queue := rest })

/-- The Java `TaskQueue` has no `close` method: the queue is never closed, in
any state.  (Present to state the dequeue contract, which is phrased in terms
of a closed flag.) -/
def javaClosed (_ : JavaTaskQueue) : Bool := false

/-! ## Interleaving semantics of the worker pool (`Worker.Run` / `main`) -/

/-- Control point of one worker inside the `for` loop of Go `Worker.Run`. -/
inductive WPhase where
  /-- About to call `GetTask` (top of the loop). -/
  | fetch
  /-- Got `task`; about to run `processTask` on it. -/
  | processing (task : Task)
  /-- Computed `result` for `task` (and counted it); about to call
  `WriteResult`. -/
  | write (task : Task) (result : String)
  /-- Broke out of the loop (`ok = false`). -/
  | done
deriving DecidableEq, Repr

/-- Per-worker local state: control point plus the local
`tasksProcessed` counter. -/
structure WorkerState where
  phase : WPhase
  tasksProcessed : Nat
deriving DecidableEq, Repr

/-- Global state of a run: the shared queue, each worker's local state
(worker at index `i` is `Worker-(i+1)`), the results file, the audit log
(messages without timestamps), and ghost instrumentation. -/
structure SysState where
  queue : TaskQueue
  workers : List WorkerState
  sink : List String
  log : List String
  /-- Ghost: the (workerId, task) pair behind each sink line, in order. -/
  emitted : List (Int × Task)
  /-- Ghost: number of `WriteResult` calls that returned an error. -/
  failedWrites : Nat
  /-- Ghost: number of times the `err != nil` branch after `processTask`
  ran (the branch at `main.go:178-182`). -/
  computeFailures : Nat
deriving DecidableEq, Repr

/-- `Worker-<id>` as the sources spell it. -/
def workerName (id : Int) : String := "Worker-" ++ toString id

/-- Go worker index `i` (0-based position in the pool) has ID `i+1`. -/
def widOf (i : Nat) : Int := (i : Int) + 1

/-- One scheduler action: which atomic step of which worker fires next, or
the coordinator's close.  `emit` carries the environment's answer for the
underlying file write (`some e` = the write fails with error `e`). -/
inductive Act where
  | fetch (i : Nat)
  | compute (i : Nat)
  | emit (i : Nat) (writeErr : Option String)
  | close
deriving DecidableEq, Repr

/-- Fire one action if it is enabled (`none` = the action cannot step now:
worker blocked on an empty open channel, wrong control point, or bad index).
Each branch is the corresponding slice of Go `Worker.Run` (lines 165-199). -/
def stepFn (a : Act) (s : SysState) : Option SysState :=
  match a with
  | .close =>
    if s.queue.closed then none
    else some { s with queue := s.queue.Close }
  | .fetch i =>
    match s.workers[i]? with
    | none => none
    | some w =>
      match w.phase with
      | .fetch =>
        match s.queue.GetTask with
        | .got t q' =>
          some { s with
            queue := q'
            workers := s.workers.set i { w with phase := .processing t }
            log := s.log ++ [workerName (widOf i) ++ " processing " ++ t.toStringGo] }
        | .closedEmpty =>
          some { s with
            workers := s.workers.set i { w with phase := .done }
            log := s.log ++
              [workerName (widOf i) ++ " found empty queue, finishing",
               workerName (widOf i) ++ " finished after processing " ++
                 toString w.tasksProcessed ++ " tasks"] }
        | .blocked => none
      | _ => none
  | .compute i =>
    match s.workers[i]? with
    | none => none
    | some w =>
      match w.phase with
      | .processing t =>
        match processTask (widOf i) t with
        | (result, err) =>
          match err with
          | some e =>
            -- `if err != nil { log; continue }` — dead code in Go, kept as written
            some { s with
              workers := s.workers.set i { w with phase := .fetch }
              log := s.log ++ ["ERROR: " ++ workerName (widOf i) ++
                " failed to process Task " ++ toString t.ID ++ ": " ++ e]
              computeFailures := s.computeFailures + 1 }
          | none =>
            -- `tasksProcessed++` happens here, before the write attempt
            some { s with
              workers := s.workers.set i
                { phase := .write t result
                  tasksProcessed := w.tasksProcessed + 1 } }
      | _ => none
  | .emit i writeErr =>
    match s.workers[i]? with
    | none => none
    | some w =>
      match w.phase with
      | .write t result =>
        match ResultWriter.WriteResult s.sink result writeErr with
        | .ok sink' =>
          some { s with
            sink := sink'
            workers := s.workers.set i { w with phase := .fetch }
            log := s.log ++ [workerName (widOf i) ++ " completed Task " ++ toString t.ID]
            emitted := s.emitted ++ [(widOf i, t)] }
        | .error e =>
          -- `if err != nil { log; continue }` — task abandoned, not requeued
          some { s with
            workers := s.workers.set i { w with phase := .fetch }
            log := s.log ++ ["ERROR: " ++ workerName (widOf i) ++
              " failed to write result for Task " ++ toString t.ID ++ ": " ++ e]
            failedWrites := s.failedWrites + 1 }
      | _ => none

/-- Run a schedule: fold the step function over the action list, skipping
actions that are not enabled.  Quantifying over all schedules quantifies over
all interleavings and all environment (write-failure) choices. -/
def run (acts : List Act) (s : SysState) : SysState :=
  acts.foldl (fun st a => (stepFn a st).getD st) s

/-- Initial state of `main`: the queue holds the preloaded tasks (capacity
`numTasks`, so preload never blocks), it is not yet closed, and `numWorkers`
workers all start at the top of their loop with zero tasks processed. -/
def initState (numWorkers numTasks : Nat) : SysState :=
  { queue := { buf := preloadTasks numTasks, closed := false }
    workers := List.replicate numWorkers { phase := .fetch, tasksProcessed := 0 }
    sink := []
    log := []
    emitted := []
    failedWrites := 0
    computeFailures := 0 }

/-! ## Coordinator program order (`main`, lines 289-356 of `go/main.go`) -/

/-- An event of the Go `main` function's own (coordinator) control flow. -/
inductive CoordEvent where
  /-- `taskQueue.AddTask(task)` inside `preloadTasks`. -/
  | enqueue (t : Task)
  /-- `go worker.Run()` for the worker with this id. -/
  | spawnWorker (id : Int)
  /-- `go func() { time.Sleep(delayMs * time.Millisecond); taskQueue.Close() }()`
  — the close is handed to a fixed timer. -/
  | scheduleTimerClose (delayMs : Nat)
  /-- A synchronous `taskQueue.Close()` right after the last enqueue — the
  close discipline the spec mandates; present for comparison, the Go `main`
  never performs it. -/
  | closeSync
deriving DecidableEq, Repr

/-- Whether a coordinator event is an enqueue. -/
def isEnqueueEvent : CoordEvent → Bool
  | .enqueue _ => true
  | _ => false

/-- Program order of the Go `main` (lines 317-346): preload all `NUM_TASKS`
tasks, launch the `NUM_WORKERS` workers, then spawn the goroutine that sleeps
100 ms and closes the queue. -/
def goMainEvents : List CoordEvent :=
  ((preloadTasks NUM_TASKS).map .enqueue)
    ++ ((List.range NUM_WORKERS).map fun i => .spawnWorker ((i : Int) + 1))
    ++ [.scheduleTimerClose 100]

/-! ## Concrete schedules used as test scenarios -/

/-- Scenario A schedule: one worker drains the single preloaded task
successfully, the coordinator closes, the worker sees the drained closed
queue and finishes. -/
def scenarioA_acts : List Act :=
  [.fetch 0, .compute 0, .emit 0 none, .close, .fetch 0]

/-- A run in which the single result write fails: the worker dequeues,
computes (and counts) the task, the write errors out, and the worker then
finds the closed empty queue and terminates. -/
def failedWriteActs : List Act :=
  [.close, .fetch 0, .compute 0, .emit 0 (some "disk full"), .fetch 0]

/-- A state with one worker about to run `processTask` on one task (used to
instantiate per-step theorems at a concrete input). -/
def computeWitState : SysState :=
  { queue := { buf := [], closed := false }
    workers := [{ phase := .processing { ID := 1, Description := "Process data item 1", DataValue := 100 }
                  tasksProcessed := 0 }]
    sink := []
    log := []
    emitted := []
    failedWrites := 0
    computeFailures := 0 }

/-- A state with one worker holding a computed result, about to write it
(used to instantiate per-step theorems at a concrete input). -/
def emitWitState : SysState :=
  { queue := { buf := [], closed := true }
    workers := [{ phase := .write { ID := 1, Description := "Process data item 1", DataValue := 100 }
                    (processTask 1 { ID := 1, Description := "Process data item 1", DataValue := 100 }).1
                  tasksProcessed := 1 }]
    sink := []
    log := []
    emitted := []
    failedWrites := 0
    computeFailures := 0 }

/-- A state with one worker at the top of its loop facing a closed, drained
queue (used to instantiate per-step theorems at a concrete input). -/
def drainedWitState : SysState :=
  { queue := { buf := [], closed := true }
    workers := [{ phase := .fetch, tasksProcessed := 1 }]
    sink := []
    log := []
    emitted := []
    failedWrites := 0
    computeFailures := 0 }

/-! ## Run invariants -/

/-- Id of the task currently held by a worker (dequeued but not yet emitted
or abandoned), as a multiset. -/
def inflightIds (w : WorkerState) : Multiset Int :=
  match w.phase with
  | .processing t => {t.ID}
  | .write t _ => {t.ID}
  | _ => 0

/-- 1 iff the worker has counted a task whose result write is still pending. -/
def writePending (w : WorkerState) : Nat :=
  match w.phase with
  | .write _ _ => 1
  | _ => 0

/-- Sum of all workers' local `tasksProcessed` counters. -/
def totalProcessed (s : SysState) : Nat :=
  (s.workers.map (fun w => w.tasksProcessed)).sum

/-- All task ids still accounted for: buffered in the queue, in flight inside
a worker, or already emitted to the sink. -/
def idsOf (s : SysState) : Multiset Int :=
  (↑(s.queue.buf.map Task.ID) : Multiset Int) + (s.workers.map inflightIds).sum
    + (↑(s.emitted.map (fun p => p.2.ID)) : Multiset Int)

/-- The run invariant:
1. the accounted-for ids form a sub-multiset of the preloaded ids (so no
   duplication and no invention of tasks);
2. the workers' counters equal successful sink lines plus failed writes plus
   counted-but-still-pending writes;
3. each sink line is the formatted result of its recorded (worker, task) pair;
4. the compute-failure branch has never run;
5. a worker in the write phase holds exactly the result `processTask` produced
   for its own id and the in-flight task. -/
def Inv (numTasks : Nat) (s : SysState) : Prop :=
  idsOf s ≤ (↑((preloadTasks numTasks).map Task.ID) : Multiset Int)
  ∧ totalProcessed s = s.sink.length + s.failedWrites + (s.workers.map writePending).sum
  ∧ s.sink = s.emitted.map (fun p => (processTask p.1 p.2).1)
  ∧ s.computeFailures = 0
  ∧ ∀ j u, s.workers[j]? = some u → ∀ t r, u.phase = .write t r →
      r = (processTask (widOf j) t).1

theorem lt_of_getElem?_eq_some {α : Type*} {l : List α} {i : Nat} {w : α}
    (h : l[i]? = some w) : i < l.length :=
  (List.getElem?_eq_some_iff.mp h).1

/-- Updating slot `i` changes a mapped sum by swapping the image of the old
entry for that of the new one. -/
theorem map_sum_set {α M : Type*} [AddCommMonoid M] (f : α → M) :
    ∀ (l : List α) (i : Nat) (x w : α), l[i]? = some w →
      ((l.set i x).map f).sum + f w = (l.map f).sum + f x := by
  intro l
  induction l with
  | nil => intro i x w h; simp at h
  | cons hd tl ih =>
    intro i x w h
    cases i with
    | zero =>
      simp only [List.getElem?_cons_zero, Option.some.injEq] at h
      subst h
      simp only [List.set_cons_zero, List.map_cons, List.sum_cons]
      abel
    | succ n =>
      simp only [List.getElem?_cons_succ] at h
      simp only [List.set_cons_succ, List.map_cons, List.sum_cons]
      rw [add_assoc, ih n x w h, ← add_assoc]

/-- Invariant clause 5 survives updating slot `i`, provided the new entry
satisfies it at `i`. -/
theorem writeClause_set {l : List WorkerState} {i : Nat} {w w' : WorkerState}
    (hw : l[i]? = some w)
    (h5 : ∀ j u, l[j]? = some u → ∀ t r, u.phase = .write t r →
      r = (processTask (widOf j) t).1)
    (hw' : ∀ t r, w'.phase = .write t r → r = (processTask (widOf i) t).1) :
    ∀ j u, (l.set i w')[j]? = some u → ∀ t r, u.phase = .write t r →
      r = (processTask (widOf j) t).1 := by
  intro j u hj t r hphase
  by_cases hji : i = j
  · subst hji
    rw [List.getElem?_set_self (lt_of_getElem?_eq_some hw)] at hj
    cases hj
    exact hw' t r hphase
  · rw [List.getElem?_set_ne hji] at hj
    exact h5 j u hj t r hphase

theorem inv_init (numWorkers numTasks : Nat) :
    Inv numTasks (initState numWorkers numTasks) := by
  refine ⟨?_, ?_, ?_, ?_, ?_⟩
  · simp [idsOf, initState, inflightIds, List.map_replicate]
  · simp [totalProcessed, initState, writePending, List.map_replicate]
  · simp [initState]
  · simp [initState]
  · intro j u hj t r hphase
    simp only [initState, List.getElem?_replicate] at hj
    split at hj
    · cases hj
      simp at hphase
    · cases hj

/-! ### Characterizations of the enabled transitions -/

theorem stepFn_close_open {s : SysState} (hcl : s.queue.closed = false) :
    stepFn .close s = some { s with queue := s.queue.Close } := by
  simp [stepFn, hcl]

theorem stepFn_fetch_got {s : SysState} {i : Nat} {w : WorkerState} {t : Task}
    {rest : List Task} (hw : s.workers[i]? = some w) (hph : w.phase = .fetch)
    (hbuf : s.queue.buf = t :: rest) :
    stepFn (.fetch i) s = some { s with
      queue := { s.queue with buf := rest }
      workers := s.workers.set i { w with phase := .processing t }
      log := s.log ++ [workerName (widOf i) ++ " processing " ++ t.toStringGo] } := by
  simp [stepFn, hw, hph, TaskQueue.GetTask, hbuf]

theorem stepFn_fetch_done {s : SysState} {i : Nat} {w : WorkerState}
    (hw : s.workers[i]? = some w) (hph : w.phase = .fetch)
    (hbuf : s.queue.buf = []) (hcl : s.queue.closed = true) :
    stepFn (.fetch i) s = some { s with
      workers := s.workers.set i { w with phase := .done }
      log := s.log ++
        [workerName (widOf i) ++ " found empty queue, finishing",
         workerName (widOf i) ++ " finished after processing " ++
           toString w.tasksProcessed ++ " tasks"] } := by
  simp [stepFn, hw, hph, TaskQueue.GetTask, hbuf, hcl]

theorem stepFn_fetch_blocked {s : SysState} {i : Nat} {w : WorkerState}
    (hw : s.workers[i]? = some w) (hph : w.phase = .fetch)
    (hbuf : s.queue.buf = []) (hcl : s.queue.closed = false) :
    stepFn (.fetch i) s = none := by
  simp [stepFn, hw, hph, TaskQueue.GetTask, hbuf, hcl]

theorem stepFn_compute_eq {s : SysState} {i : Nat} {w : WorkerState} {t : Task}
    (hw : s.workers[i]? = some w) (hph : w.phase = .processing t) :
    stepFn (.compute i) s = some { s with
      workers := s.workers.set i
        { phase := .write t (processTask (widOf i) t).1
          tasksProcessed := w.tasksProcessed + 1 } } := by
  simp [stepFn, hw, hph, processTask]

theorem stepFn_emit_ok {s : SysState} {i : Nat} {w : WorkerState} {t : Task}
    {r : String} (hw : s.workers[i]? = some w) (hph : w.phase = .write t r) :
    stepFn (.emit i none) s = some { s with
      sink := s.sink ++ [r]
      workers := s.workers.set i { w with phase := .fetch }
      log := s.log ++ [workerName (widOf i) ++ " completed Task " ++ toString t.ID]
      emitted := s.emitted ++ [(widOf i, t)] } := by
  simp [stepFn, hw, hph, ResultWriter.WriteResult]

theorem stepFn_emit_err {s : SysState} {i : Nat} {w : WorkerState} {t : Task}
    {r e : String} (hw : s.workers[i]? = some w) (hph : w.phase = .write t r) :
    stepFn (.emit i (some e)) s = some { s with
      workers := s.workers.set i { w with phase := .fetch }
      log := s.log ++ ["ERROR: " ++ workerName (widOf i) ++
        " failed to write result for Task " ++ toString t.ID ++ ": " ++
        ("failed to write result: " ++ e)]
      failedWrites := s.failedWrites + 1 } := by
  simp [stepFn, hw, hph, ResultWriter.WriteResult]

/-- Every enabled or disabled action preserves the run invariant. -/
theorem inv_step (numTasks : Nat) (a : Act) (s : SysState) (h : Inv numTasks s) :
    Inv numTasks ((stepFn a s).getD s) := by
  obtain ⟨h1, h2, h3, h4, h5⟩ := h
  cases a with
  | close =>
    cases hcl : s.queue.closed with
    | true =>
      rw [show stepFn .close s = none by simp [stepFn, hcl]]
      exact ⟨h1, h2, h3, h4, h5⟩
    | false =>
      rw [stepFn_close_open hcl, Option.getD_some]
      exact ⟨h1, h2, h3, h4, h5⟩
  | fetch i =>
    cases hw : s.workers[i]? with
    | none =>
      rw [show stepFn (.fetch i) s = none by simp [stepFn, hw]]
      exact ⟨h1, h2, h3, h4, h5⟩
    | some w =>
      cases hph : w.phase with
      | fetch =>
        cases hbuf : s.queue.buf with
        | nil =>
          cases hcl : s.queue.closed with
          | false =>
            rw [stepFn_fetch_blocked hw hph hbuf hcl]
            exact ⟨h1, h2, h3, h4, h5⟩
          | true =>
            rw [stepFn_fetch_done hw hph hbuf hcl, Option.getD_some]
            have hsum := map_sum_set inflightIds s.workers i
              { w with phase := .done } w hw
            have htp := map_sum_set (fun u => u.tasksProcessed) s.workers i
              { w with phase := .done } w hw
            have hwp := map_sum_set writePending s.workers i
              { w with phase := .done } w hw
            simp only [inflightIds, hph, writePending, add_zero] at hsum hwp
            simp only [] at htp
            refine ⟨?_, ?_, h3, h4, ?_⟩
            · simp only [idsOf] at h1 ⊢
              rw [hsum]
              exact h1
            · simp only [totalProcessed] at h2 ⊢
              rw [hwp]
              omega
            · exact writeClause_set hw h5 (by intro t r hc; simp at hc)
        | cons t rest =>
          rw [stepFn_fetch_got hw hph hbuf, Option.getD_some]
          have hsum := map_sum_set inflightIds s.workers i
            { w with phase := .processing t } w hw
          have htp := map_sum_set (fun u => u.tasksProcessed) s.workers i
            { w with phase := .processing t } w hw
          have hwp := map_sum_set writePending s.workers i
            { w with phase := .processing t } w hw
          simp only [inflightIds, hph, writePending, add_zero] at hsum hwp
          simp only [] at htp
          refine ⟨?_, ?_, h3, h4, ?_⟩
          · simp only [idsOf] at h1 ⊢
            rw [hbuf] at h1
            simp only [List.map_cons] at h1
            rw [← Multiset.cons_coe, ← Multiset.singleton_add] at h1
            rw [hsum]
            refine le_trans (le_of_eq ?_) h1
            abel
          · simp only [totalProcessed] at h2 ⊢
            rw [hwp]
            omega
          · exact writeClause_set hw h5 (by intro t' r hc; simp at hc)
      | processing t =>
        rw [show stepFn (.fetch i) s = none by simp [stepFn, hw, hph]]
        exact ⟨h1, h2, h3, h4, h5⟩
      | write t r =>
        rw [show stepFn (.fetch i) s = none by simp [stepFn, hw, hph]]
        exact ⟨h1, h2, h3, h4, h5⟩
      | done =>
        rw [show stepFn (.fetch i) s = none by simp [stepFn, hw, hph]]
        exact ⟨h1, h2, h3, h4, h5⟩
  | compute i =>
    cases hw : s.workers[i]? with
    | none =>
      rw [show stepFn (.compute i) s = none by simp [stepFn, hw]]
      exact ⟨h1, h2, h3, h4, h5⟩
    | some w =>
      cases hph : w.phase with
      | processing t =>
        rw [stepFn_compute_eq hw hph, Option.getD_some]
        have hsum := map_sum_set inflightIds s.workers i
          { phase := .write t (processTask (widOf i) t).1
            tasksProcessed := w.tasksProcessed + 1 } w hw
        have htp := map_sum_set (fun u => u.tasksProcessed) s.workers i
          { phase := .write t (processTask (widOf i) t).1
            tasksProcessed := w.tasksProcessed + 1 } w hw
        have hwp := map_sum_set writePending s.workers i
          { phase := .write t (processTask (widOf i) t).1
            tasksProcessed := w.tasksProcessed + 1 } w hw
        simp only [inflightIds, hph, writePending, add_zero] at hsum hwp
        simp only [] at htp
        have hsum' := add_right_cancel hsum
        refine ⟨?_, ?_, h3, h4, ?_⟩
        · simp only [idsOf] at h1 ⊢
          rw [hsum']
          exact h1
        · simp only [totalProcessed] at h2 ⊢
          omega
        · refine writeClause_set hw h5 ?_
          intro t' r' hc
          cases hc
          rfl
      | fetch =>
        rw [show stepFn (.compute i) s = none by simp [stepFn, hw, hph]]
        exact ⟨h1, h2, h3, h4, h5⟩
      | write t r =>
        rw [show stepFn (.compute i) s = none by simp [stepFn, hw, hph]]
        exact ⟨h1, h2, h3, h4, h5⟩
      | done =>
        rw [show stepFn (.compute i) s = none by simp [stepFn, hw, hph]]
        exact ⟨h1, h2, h3, h4, h5⟩
  | emit i writeErr =>
    cases hw : s.workers[i]? with
    | none =>
      rw [show stepFn (.emit i writeErr) s = none by simp [stepFn, hw]]
      exact ⟨h1, h2, h3, h4, h5⟩
    | some w =>
      cases hph : w.phase with
      | write t r =>
        have hr : r = (processTask (widOf i) t).1 := h5 i w hw t r hph
        have hsum := map_sum_set inflightIds s.workers i
          { w with phase := .fetch } w hw
        have htp := map_sum_set (fun u => u.tasksProcessed) s.workers i
          { w with phase := .fetch } w hw
        have hwp := map_sum_set writePending s.workers i
          { w with phase := .fetch } w hw
        simp only [inflightIds, hph, writePending, add_zero] at hsum hwp
        simp only [] at htp
        cases writeErr with
        | none =>
          rw [stepFn_emit_ok hw hph, Option.getD_some]
          refine ⟨?_, ?_, ?_, h4, ?_⟩
          · simp only [idsOf] at h1 ⊢
            simp only [List.map_append, List.map_cons, List.map_nil]
            rw [show ((s.emitted.map fun p => p.2.ID) ++ [t.ID] : Multiset Int) =
              ((s.emitted.map fun p => p.2.ID) : List Int) + ({t.ID} : Multiset Int)
              by rw [← Multiset.coe_add, Multiset.coe_singleton]]
            refine le_trans (le_of_eq ?_) h1
            rw [← hsum]
            abel
          · simp only [totalProcessed] at h2 ⊢
            simp only [List.length_append, List.length_cons, List.length_nil]
            omega
          · simp only [List.map_append, List.map_cons, List.map_nil]
            rw [← h3, hr]
          · exact writeClause_set hw h5 (by intro t' r' hc; simp at hc)
        | some e =>
          rw [stepFn_emit_err hw hph, Option.getD_some]
          refine ⟨?_, ?_, h3, h4, ?_⟩
          · simp only [idsOf] at h1 ⊢
            refine le_trans ?_ h1
            refine add_le_add_right (add_le_add_left ?_ _) _
            rw [← hsum]
            exact le_self_add
          · simp only [totalProcessed] at h2 ⊢
            omega
          · exact writeClause_set hw h5 (by intro t' r' hc; simp at hc)
      | fetch =>
        rw [show stepFn (.emit i writeErr) s = none by simp [stepFn, hw, hph]]
        exact ⟨h1, h2, h3, h4, h5⟩
      | processing t =>
        rw [show stepFn (.emit i writeErr) s = none by simp [stepFn, hw, hph]]
        exact ⟨h1, h2, h3, h4, h5⟩
      | done =>
        rw [show stepFn (.emit i writeErr) s = none by simp [stepFn, hw, hph]]
        exact ⟨h1, h2, h3, h4, h5⟩

/-- The invariant holds after any schedule from any invariant state. -/
theorem inv_run (numTasks : Nat) (acts : List Act) (s : SysState)
    (h : Inv numTasks s) : Inv numTasks (run acts s) := by
  induction acts generalizing s with
  | nil => exact h
  | cons a rest ih =>
    exact ih _ (inv_step numTasks a s h)

/-- The invariant holds in every reachable state of every run. -/
theorem inv_reachable (numWorkers numTasks : Nat) (acts : List Act) :
    Inv numTasks (run acts (initState numWorkers numTasks)) :=
  inv_run numTasks acts _ (inv_init numWorkers numTasks)

/-- Preloading via repeated `AddTask` sends on the fresh channel produces
exactly the preloaded buffer (the Coordinator is the only producer). -/
theorem preload_foldl_addTask (numTasks : Nat) :
    (preloadTasks numTasks).foldl TaskQueue.AddTask { buf := [], closed := false } =
      (initState 0 numTasks).queue := by
  have h : ∀ (l : List Task) (q : TaskQueue),
      l.foldl TaskQueue.AddTask q = { q with buf := q.buf ++ l } := by
    intro l
    induction l with
    | nil => intro q; simp
    | cons t rest ih =>
      intro q
      simp [List.foldl_cons, ih, TaskQueue.AddTask]
  simp [h, initState]

/-- The ids of the preloaded tasks are `1, 2, ..., numTasks` in order. -/
theorem preloadTasks_ids (numTasks : Nat) :
    (preloadTasks numTasks).map Task.ID =
      (List.range numTasks).map (fun (i : Nat) => (i : Int) + 1) := by
  simp [preloadTasks]

/-- The preloaded ids contain no duplicates. -/
theorem preloadTasks_ids_nodup (numTasks : Nat) :
    ((preloadTasks numTasks).map Task.ID).Nodup := by
  rw [preloadTasks_ids]
  have hinj : Function.Injective (fun i : Nat => (i : Int) + 1) := by
    intro a b hab
    simpa using hab
  exact List.Nodup.map hinj (List.nodup_range numTasks)

/-! ## Claim theorems -/

/-- C8: during preload the Coordinator enqueues exactly `numTasks` tasks whose
ids are `1, 2, ..., numTasks` in ascending order, each with
`value = id * 100`; every id is positive and unique, and the initial queue
holds exactly these tasks. -/
theorem preload_spec (numTasks : Nat) :
    (preloadTasks numTasks).length = numTasks
    ∧ (preloadTasks numTasks).map Task.ID =
        (List.range numTasks).map (fun (i : Nat) => (i : Int) + 1)
    ∧ ((preloadTasks numTasks).map Task.ID).Pairwise (· < ·)
    ∧ (∀ t ∈ preloadTasks numTasks, t.DataValue = t.ID * 100 ∧ 0 < t.ID)
    ∧ ((preloadTasks numTasks).map Task.ID).Nodup
    ∧ ∀ numWorkers : Nat,
        (initState numWorkers numTasks).queue.buf = preloadTasks numTasks := by
  refine ⟨?_, preloadTasks_ids numTasks, ?_, ?_, preloadTasks_ids_nodup numTasks,
    fun numWorkers => rfl⟩
  · simp [preloadTasks]
  · rw [preloadTasks_ids]
    refine List.Pairwise.map _ ?_ (List.pairwise_lt_range numTasks)
    intro a b hab
    simpa using hab
  · intro t ht
    simp only [preloadTasks, List.mem_map, List.mem_range] at ht
    obtain ⟨i, hi, rfl⟩ := ht
    refine ⟨rfl, ?_⟩
    positivity

/-- Witness for `preload_spec`: task 5 of the 20-task preload (value 500)
satisfies `value = id * 100` and `0 < id`. -/
theorem preload_spec_witness :
    ({ ID := 5, Description := "Process data item 5", DataValue := 500 } : Task).DataValue =
      ({ ID := 5, Description := "Process data item 5", DataValue := 500 } : Task).ID * 100
    ∧ 0 < ({ ID := 5, Description := "Process data item 5", DataValue := 500 } : Task).ID :=
  (preload_spec 20).2.2.2.1 _ (by decide)

/-- C4: in every run (any worker count, any task count, any interleaving and
any write-failure pattern) each enqueued task is delivered to at most one
worker: the task ids recorded for the ResultSink lines contain no duplicates
and form a subset of `{1, ..., numTasks}`. -/
theorem no_task_duplication (numWorkers numTasks : Nat) (acts : List Act) :
    ((run acts (initState numWorkers numTasks)).emitted.map (fun p => p.2.ID)).Nodup
    ∧ (run acts (initState numWorkers numTasks)).emitted.map (fun p => p.2.ID)
        ⊆ (List.range numTasks).map (fun (i : Nat) => (i : Int) + 1) := by
  obtain ⟨h1, -, -, -, -⟩ := inv_reachable numWorkers numTasks acts
  have hE : (((run acts (initState numWorkers numTasks)).emitted.map
        (fun p => p.2.ID) : List Int) : Multiset Int)
      ≤ (((preloadTasks numTasks).map Task.ID : List Int) : Multiset Int) := by
    refine le_trans ?_ h1
    exact le_add_self
  constructor
  · have hnd : Multiset.Nodup (((preloadTasks numTasks).map Task.ID : List Int) :
        Multiset Int) := by
      rw [Multiset.coe_nodup]
      exact preloadTasks_ids_nodup numTasks
    have := Multiset.nodup_of_le hE hnd
    rwa [Multiset.coe_nodup] at this
  · have hsub := Multiset.subset_of_le hE
    rw [preloadTasks_ids] at hsub
    intro x hx
    have := hsub (Multiset.mem_coe.2 hx)
    exact Multiset.mem_coe.1 this

/-- C7: every ResultSink line of every run is exactly
`Task <id> processed by Worker-<workerId> | Original: <value> | Processed:
<processedValue>`, with the fields taken from the recorded (worker, task)
pair that produced it. -/
theorem result_line_format (numWorkers numTasks : Nat) (acts : List Act) :
    (run acts (initState numWorkers numTasks)).sink =
      (run acts (initState numWorkers numTasks)).emitted.map
        (fun p => "Task " ++ toString p.2.ID ++ " processed by Worker-" ++
          toString p.1 ++ " | Original: " ++ toString p.2.DataValue ++
          " | Processed: " ++ toString (p.2.DataValue * 2 + p.2.ID)) := by
  obtain ⟨-, -, h3, -, -⟩ := inv_reachable numWorkers numTasks acts
  rw [h3]
  rfl

/-- C2 is refuted on the code: in the run `failedWriteActs` (one worker, one
task, the single result write fails) every worker has terminated, yet the
workers' `tasksProcessed` counters sum to 1 while the ResultSink holds 0
lines — the counter is incremented after `processTask` succeeds but before
the write is attempted. -/
theorem completion_accounting_cex :
    ((run failedWriteActs (initState 1 1)).workers.all
        fun w => w.phase == WPhase.done) = true
    ∧ (run failedWriteActs (initState 1 1)).failedWrites = 1
    ∧ totalProcessed (run failedWriteActs (initState 1 1)) = 1
    ∧ (run failedWriteActs (initState 1 1)).sink.length = 0
    ∧ totalProcessed (run failedWriteActs (initState 1 1)) ≠
        (run failedWriteActs (initState 1 1)).sink.length := by
  refine ⟨by decide, by decide, by decide, by decide, by decide⟩

/-- C2 amended: at termination (all workers done) the sum of the workers'
`tasksProcessedCount` equals the number of successful ResultSink lines PLUS
the number of failed result writes; the two agree exactly in runs where
every result write succeeded. -/
theorem completion_accounting (numWorkers numTasks : Nat) (acts : List Act)
    (hdone : ∀ w ∈ (run acts (initState numWorkers numTasks)).workers,
      w.phase = WPhase.done) :
    totalProcessed (run acts (initState numWorkers numTasks)) =
      (run acts (initState numWorkers numTasks)).sink.length
        + (run acts (initState numWorkers numTasks)).failedWrites := by
  obtain ⟨-, h2, -, -, -⟩ := inv_reachable numWorkers numTasks acts
  have hz : ((run acts (initState numWorkers numTasks)).workers.map
      writePending).sum = 0 := by
    refine List.sum_eq_zero ?_
    intro x hx
    obtain ⟨w, hw, rfl⟩ := List.mem_map.1 hx
    simp [writePending, hdone w hw]
  omega

/-- Witness for `completion_accounting`: in the concrete terminated run
`failedWriteActs`, counters sum (1) = sink lines (0) + failed writes (1). -/
theorem completion_accounting_witness :
    totalProcessed (run failedWriteActs (initState 1 1)) =
      (run failedWriteActs (initState 1 1)).sink.length
        + (run failedWriteActs (initState 1 1)).failedWrites :=
  completion_accounting 1 1 failedWriteActs (by decide)

/-- C6: the compute step applies `processedValue = value*2 + id` to every
task it processes (the result line carries exactly that value and the error
component is `nil`); in Scenario A (one task `{id=1, value=100}`, one
worker) the ResultSink ends up with exactly one line, with Processed=201. -/
theorem transform_scenarioA :
    (∀ (wid : Int) (t : Task),
      processTask wid t =
        ("Task " ++ toString t.ID ++ " processed by Worker-" ++ toString wid ++
          " | Original: " ++ toString t.DataValue ++ " | Processed: " ++
          toString (t.DataValue * 2 + t.ID), none))
    ∧ (run scenarioA_acts (initState 1 1)).sink =
        ["Task 1 processed by Worker-1 | Original: 100 | Processed: 201"] := by
  exact ⟨fun wid t => rfl, rfl⟩

/-- C10: `Logger.Log` never reports a write failure to its caller — on a
failing write it prints to the stderr side channel, leaves the log file
unchanged, and returns normally (its result is just the new `LoggerState`) —
whereas `ResultWriter.WriteResult` returns the (wrapped) write error to the
calling worker. -/
theorem auditLog_swallows_errors :
    (∀ (l : LoggerState) (m e : String),
      Logger.Log l m (some e) =
        { l with stderrLines :=
            l.stderrLines ++ ["ERROR: Failed to write log: " ++ e] })
    ∧ (∀ (l : LoggerState) (m e : String), (Logger.Log l m (some e)).file = l.file)
    ∧ (∀ (l : LoggerState) (m : String),
        Logger.Log l m none = { l with file := l.file ++ [m] })
    ∧ (∀ (f : List String) (r e : String),
        ResultWriter.WriteResult f r (some e) =
          .error ("failed to write result: " ++ e))
    ∧ (∀ (f : List String) (r : String),
        ResultWriter.WriteResult f r none = .ok (f ++ [r])) :=
  ⟨fun _ _ _ => rfl, fun _ _ _ => rfl, fun _ _ => rfl,
   fun _ _ _ => rfl, fun _ _ => rfl⟩

/-- C3 is refuted on the Java implementation: its `TaskQueue` has no close
operation (`javaClosed` is identically false), yet `getTask` on the empty —
and therefore not-closed — queue returns `null`, i.e. `hasTask = false`. -/
theorem dequeue_empty_signal_cex :
    javaGetTask { queue := [] } = none
    ∧ javaClosed { queue := [] } = false :=
  ⟨rfl, rfl⟩

/-- C3 amended: the Go dequeue returns `hasTask = false` exactly when the
channel is closed AND empty, blocks when it is empty but open, and otherwise
yields the oldest buffered task; the Java `getTask` has no closed flag and
returns `null` (`hasTask = false`) exactly when the queue is merely empty —
it never blocks. -/
theorem dequeue_empty_signal :
    (∀ q : TaskQueue, q.GetTask = .closedEmpty ↔ (q.closed = true ∧ q.buf = []))
    ∧ (∀ q : TaskQueue, q.GetTask = .blocked ↔ (q.closed = false ∧ q.buf = []))
    ∧ (∀ (t : Task) (rest : List Task) (c : Bool),
        TaskQueue.GetTask { buf := t :: rest, closed := c } =
          .got t { buf := rest, closed := c })
    ∧ (∀ q : JavaTaskQueue, javaGetTask q = none ↔ q.queue = [])
    ∧ (∀ q : JavaTaskQueue, javaClosed q = false) := by
  refine ⟨?_, ?_, fun t rest c => rfl, ?_, fun q => rfl⟩
  · rintro ⟨buf, cl⟩
    cases buf <;> cases cl <;> simp [TaskQueue.GetTask]
  · rintro ⟨buf, cl⟩
    cases buf <;> cases cl <;> simp [TaskQueue.GetTask]
  · rintro ⟨q⟩
    cases q <;> simp [javaGetTask]

/-- C9: the Go `processTask` returns a `nil` error for every input, so the
compute-failure branch of `Worker.Run` (log-and-continue without emitting)
never executes in any run (`computeFailures` stays 0), and every dequeued
task reaches the Emit step: the compute step always moves the worker to the
write phase carrying the formatted result. -/
theorem processTask_never_fails :
    (∀ (wid : Int) (t : Task), (processTask wid t).2 = none)
    ∧ (∀ (numWorkers numTasks : Nat) (acts : List Act),
        (run acts (initState numWorkers numTasks)).computeFailures = 0)
    ∧ (∀ (s : SysState) (i : Nat) (w : WorkerState) (t : Task),
        s.workers[i]? = some w → w.phase = .processing t →
        stepFn (.compute i) s = some { s with
          workers := s.workers.set i
            { phase := .write t (processTask (widOf i) t).1
              tasksProcessed := w.tasksProcessed + 1 } }) := by
  refine ⟨fun wid t => rfl, ?_, ?_⟩
  · intro numWorkers numTasks acts
    obtain ⟨-, -, -, h4, -⟩ := inv_reachable numWorkers numTasks acts
    exact h4
  · intro s i w t hw hph
    exact stepFn_compute_eq hw hph

/-- Witness for `processTask_never_fails`: the compute step at the concrete
one-worker state moves the worker into the write phase with its task
counted. -/
theorem processTask_never_fails_witness :
    stepFn (.compute 0) computeWitState = some { computeWitState with
      workers := computeWitState.workers.set 0
        { phase := .write
            { ID := 1, Description := "Process data item 1", DataValue := 100 }
            (processTask (widOf 0)
              { ID := 1, Description := "Process data item 1", DataValue := 100 }).1
          tasksProcessed := 1 } } :=
  processTask_never_fails.2.2 computeWitState 0 _ _ rfl rfl

/-- At matching index the updated entry is read back; elsewhere the original
list is read. -/
theorem getElem?_set_cases {α : Type*} {l : List α} {i j : Nat} {u' w w' : α}
    (hw : l[i]? = some w) (hw' : (l.set j u')[i]? = some w') :
    (i = j ∧ w' = u') ∨ w' = w := by
  by_cases hij : j = i
  · subst hij
    rw [List.getElem?_set_self (lt_of_getElem?_eq_some hw)] at hw'
    cases hw'
    exact Or.inl ⟨rfl, rfl⟩
  · rw [List.getElem?_set_ne hij] at hw'
    rw [hw] at hw'
    cases hw'
    exact Or.inr rfl

/-- A worker that was not done and becomes done in one step did so through
its own fetch on a closed, drained queue. -/
theorem done_only_by_drained_fetch
    (a : Act) (s s' : SysState) (i : Nat) (w w' : WorkerState)
    (hstep : stepFn a s = some s')
    (hw : s.workers[i]? = some w) (hw' : s'.workers[i]? = some w')
    (hnd : w.phase ≠ .done) (hd : w'.phase = .done) :
    a = .fetch i ∧ s.queue.buf = [] ∧ s.queue.closed = true := by
  cases a with
  | close =>
    cases hcl : s.queue.closed with
    | true => simp [stepFn, hcl] at hstep
    | false =>
      rw [stepFn_close_open hcl] at hstep
      cases hstep
      have hw2 : s.workers[i]? = some w' := hw'
      rw [hw] at hw2
      cases hw2
      exact absurd hd hnd
  | fetch j =>
    cases hwj : s.workers[j]? with
    | none => simp [stepFn, hwj] at hstep
    | some u =>
      cases hphj : u.phase with
      | fetch =>
        cases hbuf : s.queue.buf with
        | nil =>
          cases hcl : s.queue.closed with
          | false =>
            rw [stepFn_fetch_blocked hwj hphj hbuf hcl] at hstep
            cases hstep
          | true =>
            rw [stepFn_fetch_done hwj hphj hbuf hcl] at hstep
            cases hstep
            have hw2 : (s.workers.set j { u with phase := .done })[i]? = some w' :=
              hw'
            rcases getElem?_set_cases hw hw2 with ⟨rfl, rfl⟩ | rfl
            · refine ⟨rfl, ?_, ?_⟩ <;> simp [hbuf, hcl]
            · exact absurd hd hnd
        | cons t rest =>
          rw [stepFn_fetch_got hwj hphj hbuf] at hstep
          cases hstep
          have hw2 : (s.workers.set j { u with phase := .processing t })[i]? =
              some w' := hw'
          rcases getElem?_set_cases hw hw2 with ⟨rfl, rfl⟩ | rfl
          · simp at hd
          · exact absurd hd hnd
      | processing t => simp [stepFn, hwj, hphj] at hstep
      | write t r => simp [stepFn, hwj, hphj] at hstep
      | done => simp [stepFn, hwj, hphj] at hstep
  | compute j =>
    cases hwj : s.workers[j]? with
    | none => simp [stepFn, hwj] at hstep
    | some u =>
      cases hphj : u.phase with
      | processing t =>
        rw [stepFn_compute_eq hwj hphj] at hstep
        cases hstep
        have hw2 : (s.workers.set j
            { phase := .write t (processTask (widOf j) t).1
              tasksProcessed := u.tasksProcessed + 1 })[i]? = some w' := hw'
        rcases getElem?_set_cases hw hw2 with ⟨rfl, rfl⟩ | rfl
        · simp at hd
        · exact absurd hd hnd
      | fetch => simp [stepFn, hwj, hphj] at hstep
      | write t r => simp [stepFn, hwj, hphj] at hstep
      | done => simp [stepFn, hwj, hphj] at hstep
  | emit j werr =>
    cases hwj : s.workers[j]? with
    | none => simp [stepFn, hwj] at hstep
    | some u =>
      cases hphj : u.phase with
      | write t r =>
        cases werr with
        | none =>
          rw [stepFn_emit_ok hwj hphj] at hstep
          cases hstep
          have hw2 : (s.workers.set j { u with phase := .fetch })[i]? = some w' :=
            hw'
          rcases getElem?_set_cases hw hw2 with ⟨rfl, rfl⟩ | rfl
          · simp at hd
          · exact absurd hd hnd
        | some e =>
          rw [stepFn_emit_err hwj hphj] at hstep
          cases hstep
          have hw2 : (s.workers.set j { u with phase := .fetch })[i]? = some w' :=
            hw'
          rcases getElem?_set_cases hw hw2 with ⟨rfl, rfl⟩ | rfl
          · simp at hd
          · exact absurd hd hnd
      | fetch => simp [stepFn, hwj, hphj] at hstep
      | processing t => simp [stepFn, hwj, hphj] at hstep
      | done => simp [stepFn, hwj, hphj] at hstep

/-- C5: a per-task error (here: a failing result write; compute failures
cannot occur in the Go transform) is recovered locally — the worker logs the
error message carrying its own name and the task id, leaves the queue and
the sink untouched (no retry, no requeue), increments nothing but the
failed-write count, and returns to the top of its loop; and a worker's loop
exits (reaches the done phase) only through a fetch that observed the queue
closed and empty. -/
theorem per_task_error_locality :
    (∀ (s : SysState) (i : Nat) (w : WorkerState) (t : Task) (r e : String),
      s.workers[i]? = some w → w.phase = .write t r →
      stepFn (.emit i (some e)) s = some { s with
        workers := s.workers.set i { w with phase := .fetch }
        log := s.log ++ ["ERROR: " ++ workerName (widOf i) ++
          " failed to write result for Task " ++ toString t.ID ++ ": " ++
          ("failed to write result: " ++ e)]
        failedWrites := s.failedWrites + 1 })
    ∧ (∀ (a : Act) (s s' : SysState) (i : Nat) (w w' : WorkerState),
        stepFn a s = some s' → s.workers[i]? = some w →
        s'.workers[i]? = some w' → w.phase ≠ .done → w'.phase = .done →
        a = .fetch i ∧ s.queue.buf = [] ∧ s.queue.closed = true) :=
  ⟨fun _ _ _ _ _ _ hw hph => stepFn_emit_err hw hph,
   fun a s s' i w w' hstep hw hw' hnd hd =>
     done_only_by_drained_fetch a s s' i w w' hstep hw hw' hnd hd⟩

set_option maxHeartbeats 2000000 in
/-- Witness for `per_task_error_locality`: a failing write at the concrete
pending-write state sends the worker back to fetch with the error logged;
and the concrete done-transition goes through a fetch on the closed drained
queue. -/
theorem per_task_error_locality_witness :
    (stepFn (.emit 0 (some "disk full")) emitWitState = some { emitWitState with
      workers := emitWitState.workers.set 0 { phase := .fetch, tasksProcessed := 1 }
      log := emitWitState.log ++ ["ERROR: " ++ workerName (widOf 0) ++
        " failed to write result for Task " ++ toString (1 : Int) ++ ": " ++
        ("failed to write result: " ++ "disk full")]
      failedWrites := emitWitState.failedWrites + 1 })
    ∧ (Act.fetch 0 = Act.fetch 0 ∧ drainedWitState.queue.buf = []
        ∧ drainedWitState.queue.closed = true) :=
  ⟨per_task_error_locality.1 emitWitState 0 _ _ _ "disk full" rfl rfl,
   per_task_error_locality.2 (.fetch 0) drainedWitState
     ((stepFn (.fetch 0) drainedWitState).getD drainedWitState) 0
     { phase := .fetch, tasksProcessed := 1 }
     { phase := .done, tasksProcessed := 1 }
     rfl rfl rfl (by decide) rfl⟩

/-- C1 (evaluation of the code at the failing input): in the Go `main`'s
program order all 20 enqueues precede the event that schedules the close —
which is why the defect stays latent — but that event is a fixed-100 ms
timer close (`go func(){ time.Sleep(100ms); close }`), and no synchronous
after-last-enqueue close exists: the close IS triggered by a fixed timer,
contrary to the claim. -/
theorem goMain_close_timer_scheduled :
    goMainEvents.length = 26
    ∧ (goMainEvents.take 20).all isEnqueueEvent = true
    ∧ ((goMainEvents.drop 20).all fun e => !isEnqueueEvent e) = true
    ∧ goMainEvents[25]? = some (.scheduleTimerClose 100)
    ∧ CoordEvent.closeSync ∉ goMainEvents := by
  refine ⟨by decide, by decide, by decide, by decide, by decide⟩

end DataProcessingSystem
